import Mathlib

/-!
# Conditional k-nearest-neighbor matching workflow: a shallow embedding

This file embeds the matching workflow of the art-exploration notebook
(`add_matches`, `plot_img`, `plot_urls`, `test_all`) in Lean 4 and proves
the orchestration-contract properties stated in the specification.

Dataframes are embedded as lists of rows, a row being an ordered
association list of column name / value pairs; the Spark column
operations used by the notebook (`withColumn`, `withColumnRenamed`,
`transform`) become per-row list operations.  The external
`ConditionalKNN`/`ConditionalKNNModel` index is modelled from the spec
(its implementation is not part of the repository), with embeddings as
integer vectors and squared Euclidean distance, a stable insertion sort
as the "unspecified but consistent" tie-breaking order, and `k` limiting
the result length.  Python exceptions are embedded with `Except`.
-/

/-- One entry of a Match Result as produced by the conditional KNN model:
the auxiliary value (the notebook's `setValuesCol("Thumbnail_Url")`) and
its distance to the query embedding.  `test_all` reads field `value`. -/
structure MatchRec where
  value : String
  distance : Int
deriving DecidableEq, Repr

/-- Cell values occurring in the notebook's dataframes: strings (ids,
urls, labels), embedding vectors (`Norm_Features`), string arrays (the
`conditioner` column built by `array(lit(label))`), and match lists. -/
inductive Value where
  | str : String → Value
  | vec : List Int → Value
  | strList : List String → Value
  | matches : List MatchRec → Value
deriving DecidableEq, Repr

/-- A dataframe row: an ordered association list of columns. -/
abbrev Row := List (String × Value)

/-- A dataframe: a list of rows. -/
abbrev Table := List Row

/-- Column lookup (first occurrence), as Spark resolves a column name. -/
def getCol : Row → String → Option Value
  | [], _ => none
  | (m, v) :: rest, n => if m = n then some v else getCol rest n

/-- Read a column as an embedding vector; absent or ill-typed gives `[]`. -/
def getVec (r : Row) (n : String) : List Int :=
  match getCol r n with
  | some (Value.vec xs) => xs
  | _ => []

/-- Read a column as a string array; absent or ill-typed gives `[]`. -/
def getStrList (r : Row) (n : String) : List String :=
  match getCol r n with
  | some (Value.strList xs) => xs
  | _ => []

/-- Read a column as a string; absent or ill-typed gives `""`. -/
def getStr (r : Row) (n : String) : String :=
  match getCol r n with
  | some (Value.str s) => s
  | _ => ""

/-- Spark `withColumn` at row level: replace the column in place when it
exists, otherwise append it at the end of the row. -/
def setCol (n : String) (v : Value) : Row → Row
  | [] => [(n, v)]
  | (m, w) :: rest => if m = n then (m, v) :: rest else (m, w) :: setCol n v rest

/-- Spark `withColumnRenamed` at row level: rename every column named
`old` to `new`; a no-op when `old` is absent. -/
def renameCol (old new : String) (r : Row) : Row :=
  r.map (fun p => if p.1 = old then (new, p.2) else p)

/-- Squared Euclidean distance of two embedding vectors. -/
def dist2 (a b : List Int) : Int :=
  ((a.zip b).map (fun p => (p.1 - p.2) * (p.1 - p.2))).sum

/-- Insert a match into a distance-sorted list, after all entries of
equal or smaller distance (a stable order, fixing the spec's
"unspecified but consistent" tie-break). -/
def insertByDist (m : MatchRec) : List MatchRec → List MatchRec
  | [] => [m]
  | x :: xs => if m.distance < x.distance then m :: x :: xs else x :: insertByDist m xs

/-- Stable insertion sort by ascending distance. -/
def sortByDist (l : List MatchRec) : List MatchRec :=
  l.foldr insertByDist []

/-- Modelled from the spec: one (embedding, label, auxiliary-value) tuple
of the entity store held by the fitted conditional match index; the
index implementation itself is external to the repository. -/
structure Entry where
  features : List Int
  label : String
  value : String
deriving DecidableEq, Repr

/-- Modelled from the spec: the external fitted `ConditionalKNNModel`
(§4.1 of the spec), reduced to its observable contract: the stored
entity tuples, the per-run result count `k`, and the column names it
reads and writes. -/
structure ConditionalKNNModel where
  store : List Entry
  k : Nat
  outputCol : String
  featuresCol : String
  conditionerCol : String
deriving DecidableEq, Repr

/-- Modelled from the spec: `Query(index, query embedding, conditions, k)`
returns the top-`k` stored entities whose label satisfies the
conditioner array, ordered by ascending distance to the query embedding
(§4.1).  Total: an empty filter result simply yields `[]`. -/
def query (entries : List Entry) (k : Nat) (q : List Int) (conds : List String) : List MatchRec :=
  (sortByDist ((entries.filter (fun e => conds.contains e.label)).map
    (fun e => ⟨e.value, dist2 q e.features⟩))).take k

/-- Modelled from the spec: `ConditionalKNNModel.transform` at row level —
append the output column holding the Match Result for this row's
embedding under this row's conditioner array; all existing columns are
preserved (a Spark transformer only appends its output column). -/
def transformRow (m : ConditionalKNNModel) (r : Row) : Row :=
  r ++ [(m.outputCol,
    Value.matches (query m.store m.k (getVec r m.featuresCol) (getStrList r m.conditionerCol)))]

/-- Modelled from the spec: `ConditionalKNNModel.transform` on a dataframe. -/
def transform (m : ConditionalKNNModel) (t : Table) : Table :=
  t.map (transformRow m)

/-- The notebook's
`ConditionalKNN().setOutputCol("Matches").setFeaturesCol("Norm_Features").setValuesCol("Thumbnail_Url").setLabelCol(...).fit(small_df)`:
fitting stores the entity tuples; `k` is left at its default, observed
as 1 in the spec. -/
def conditionalKNN (entries : List Entry) : ConditionalKNNModel :=
  ⟨entries, 1, "Matches", "Norm_Features", "conditioner"⟩

/-- Spark `withColumn` with a constant per-row value, on a dataframe. -/
def withColumn (n : String) (v : Value) (t : Table) : Table :=
  t.map (setCol n v)

/-- Spark `withColumnRenamed` on a dataframe. -/
def withColumnRenamed (old new : String) (t : Table) : Table :=
  t.map (renameCol old new)

/-- The notebook's `add_matches(classes, cknn, df)`:
for each label, set the `conditioner` column to `[label]`, run the
model's transform, and rename its `Matches` output to `Matches_<label>`. -/
def add_matches (classes : List String) (cknn : ConditionalKNNModel) (df : Table) : Table :=
  classes.foldl (fun results label =>
    withColumnRenamed "Matches" ("Matches_" ++ label)
      (transform cknn (withColumn "conditioner" (Value.strList [label]) results))) df

/-- The per-row action of one iteration of the `add_matches` loop. -/
def add_matches_rowStep (m : ConditionalKNNModel) (r : Row) (label : String) : Row :=
  renameCol "Matches" ("Matches_" ++ label)
    (transformRow m (setCol "conditioner" (Value.strList [label]) r))

/-- The match columns `add_matches` produces for a row `r`:
one column `Matches_<label>` per label, in input order, holding the
index query for `r`'s embedding under that single label. -/
def matchCols (m : ConditionalKNNModel) (classes : List String) (r : Row) :
    List (String × Value) :=
  classes.map (fun l =>
    ("Matches_" ++ l, Value.matches (query m.store m.k (getVec r m.featuresCol) [l])))

/-- Everything `add_matches` appends to a row: nothing for an empty
condition list, otherwise the leftover `conditioner` scratch column
(holding the last label) followed by the match columns. -/
def extraCols (m : ConditionalKNNModel) (classes : List String) (r : Row) :
    List (String × Value) :=
  match classes with
  | [] => []
  | c :: cs =>
    ("conditioner", Value.strList [(c :: cs).getLastD ""]) :: matchCols m (c :: cs) r

/-- Decoded image bytes (`Image.open(BytesIO(...)).convert('RGB')`), kept opaque. -/
abbrev Img := String

/-- A cell as rendered by `plot_img`: the fetched image shown with
`imshow`, and the title set when one was given. -/
structure RenderedCell where
  url : String
  title : Option String
  img : Img
deriving DecidableEq, Repr

/-- The subplot grid laid out by `plot_urls`: `rows × cols` axes, with
`cell` listing for each axes position its url and optional title
(outer list indexed by subplot row `j`, inner by subplot column `i`). -/
structure Grid where
  rows : Nat
  cols : Nat
  cell : List (List (String × Option String))
deriving DecidableEq, Repr

/-- Fail-fast list traversal: the embedding of a Python list
comprehension or loop in which each element's computation may raise. -/
def mapE {α β : Type} (f : α → Except String β) : List α → Except String (List β)
  | [] => .ok []
  | x :: xs =>
    match f x with
    | .error e => .error e
    | .ok y =>
      match mapE f xs with
      | .error e => .error e
      | .ok ys => .ok (y :: ys)

/-- `url_arr[i, j]` of the rectangular numpy array (`i` indexes the
outer list, `j` the inner). -/
def arrAt (url_arr : List (List String)) (i j : Nat) : String :=
  ((url_arr[i]?.getD [])[j]?).getD ""

/-- The grid geometry of `plot_urls`: with `nx, ny = url_arr.shape` it
creates `plt.subplots(ny, nx)` — `ny` subplot rows and `nx` subplot
columns — and puts `url_arr[i, j]` on axes `[j, i]`, with `titles[i]`
as the title of the top (`j = 0`) axes of column `i`. -/
def plot_urls_grid (url_arr : List (List String)) (titles : List String) : Grid :=
  let nx := url_arr.length
  let ny := (url_arr.headD []).length
  ⟨ny, nx,
    (List.range ny).map (fun j => (List.range nx).map (fun i =>
      (arrAt url_arr i j, if j = 0 then titles[i]? else none)))⟩

/-- The content of axes `[j, i]` of a grid. -/
def cellAt (g : Grid) (j i : Nat) : Option (String × Option String) :=
  g.cell[j]?.bind (fun row => row[i]?)

/-- The url drawn on axes `[j, i]`. -/
def cellUrl (g : Grid) (j i : Nat) : String :=
  ((cellAt g j i).map Prod.fst).getD ""

/-- The title of axes `[j, i]`. -/
def cellTitle (g : Grid) (j i : Nat) : Option String :=
  ((cellAt g j i).map Prod.snd).getD none

/-- The notebook's `plot_img(axis, url, title)`: `requests.get` and the
image decode may both raise; on success the image is shown with the
optional title.  `fetch` stands for the network-and-decode step. -/
def plot_img (fetch : String → Except String Img) (url : String) (title : Option String) :
    Except String RenderedCell :=
  (fetch url).map (fun im => ⟨url, title, im⟩)

/-- The axes positions `(i, j)` in the visit order of `plot_urls`'s
nested loops (`for i in range(nx): for j in range(ny)`). -/
def gridIndices (g : Grid) : List (Nat × Nat) :=
  (List.range g.cols).flatMap (fun i => (List.range g.rows).map (fun j => (i, j)))

/-- The notebook's `plot_urls(url_arr, titles, filename)`: lay out the
grid, call `plot_img` on every cell (any raised exception propagates
and aborts the whole render), then `plt.savefig(filename)`; the saved
filename is the produced artifact. -/
def plot_urls (fetch : String → Except String Img) (url_arr : List (List String))
    (titles : List String) (filename : String) : Except String String :=
  match mapE (fun p => plot_img fetch (cellUrl (plot_urls_grid url_arr titles) p.2 p.1)
      (cellTitle (plot_urls_grid url_arr titles) p.2 p.1))
      (gridIndices (plot_urls_grid url_arr titles)) with
  | .error e => .error e
  | .ok _ => .ok filename

/-- The notebook's `mediums` list. -/
def mediums : List String := ["paintings", "glass", "ceramics"]

/-- The notebook's `cultures` list. -/
def cultures : List String := ["japanese", "american", "african (general)"]

/-- The extraction `row["Matches_<label>"][0]["value"]` in `test_all`:
a missing column raises a key error, an empty match list raises an
index error. -/
def firstMatchValue (r : Row) (label : String) : Except String String :=
  match getCol r ("Matches_" ++ label) with
  | some (Value.matches (mr :: _)) => .ok mr.value
  | some (Value.matches []) => .error "IndexError: list index out of range"
  | _ => .error "KeyError"

/-- The list comprehension
`[[row["Matches_{}".format(label)][0]["value"] for row in results] for label in labels]`. -/
def extractUrls (labels : List String) (results : Table) :
    Except String (List (List String)) :=
  mapE (fun l => mapE (fun r => firstMatchValue r l) results) labels

/-- The notebook's `test_all(data, cknn_medium, cknn_culture, test_ids, root)`:
filter the query rows by id, run `add_matches` for mediums then
cultures, collect, extract original and first-match thumbnail urls, and
render/save the culture grid then the medium grid.  Returns the list of
artifacts written before any exception, and either the raised exception
or the returned dataframe. -/
def test_all (fetch : String → Except String Img) (data : Table)
    (cknn_medium cknn_culture : ConditionalKNNModel)
    (test_ids : List String) (root : String) : List String × Except String Table :=
  let test_df := data.filter (fun r =>
    match getCol r "id" with
    | some (Value.str s) => test_ids.contains s
    | _ => false)
  let results_df_medium := add_matches mediums cknn_medium test_df
  let results_df_culture := add_matches cultures cknn_culture results_df_medium
  let results := results_df_culture
  let original_urls := results.map (fun r => getStr r "Thumbnail_Url")
  match extractUrls cultures results with
  | .error e => ([], .error e)
  | .ok culture_urls =>
    match plot_urls fetch (original_urls :: culture_urls) ("Original" :: cultures)
        (root ++ "matches_by_culture.png") with
    | .error e => ([], .error e)
    | .ok f1 =>
      match extractUrls mediums results with
      | .error e => ([f1], .error e)
      | .ok medium_urls =>
        match plot_urls fetch (original_urls :: medium_urls) ("Original" :: mediums)
            (root ++ "matches_by_medium.png") with
        | .error e => ([f1], .error e)
        | .ok f2 => ([f1, f2], .ok results_df_culture)

section BasicLemmas

lemma getCol_append_of_none {a : Row} {n : String} (b : Row) (h : getCol a n = none) :
    getCol (a ++ b) n = getCol b n := by
  induction a with
  | nil => rfl
  | cons p rest ih =>
    obtain ⟨m, v⟩ := p
    by_cases hm : m = n
    · simp [getCol, hm] at h
    · simp only [getCol, hm, if_neg hm, List.cons_append] at h ⊢
      exact ih h

lemma getCol_append_of_some {a : Row} {n : String} {v : Value} (b : Row)
    (h : getCol a n = some v) : getCol (a ++ b) n = some v := by
  induction a with
  | nil => simp [getCol] at h
  | cons p rest ih =>
    obtain ⟨m, w⟩ := p
    by_cases hm : m = n
    · simp only [getCol, if_pos hm, List.cons_append] at h ⊢
      exact h
    · simp only [getCol, if_neg hm, List.cons_append] at h ⊢
      exact ih h

lemma getCol_none_iff {r : Row} {n : String} :
    getCol r n = none ↔ ∀ p ∈ r, p.1 ≠ n := by
  induction r with
  | nil => simp [getCol]
  | cons p rest ih =>
    obtain ⟨m, v⟩ := p
    by_cases hm : m = n
    · simp [getCol, hm]
    · simp [getCol, hm, ih]

lemma setCol_cons_self (n : String) (v w : Value) (rest : Row) :
    setCol n v ((n, w) :: rest) = (n, v) :: rest := by
  simp [setCol]

lemma setCol_append_of_none {a : Row} {n : String} (v : Value) (b : Row)
    (h : getCol a n = none) : setCol n v (a ++ b) = a ++ setCol n v b := by
  induction a with
  | nil => rfl
  | cons p rest ih =>
    obtain ⟨m, w⟩ := p
    by_cases hm : m = n
    · simp [getCol, hm] at h
    · simp only [getCol, if_neg hm] at h
      simp [setCol, hm, ih h]

lemma setCol_of_none {r : Row} {n : String} (v : Value) (h : getCol r n = none) :
    setCol n v r = r ++ [(n, v)] := by
  induction r with
  | nil => rfl
  | cons p rest ih =>
    obtain ⟨m, w⟩ := p
    by_cases hm : m = n
    · simp [getCol, hm] at h
    · simp only [getCol, if_neg hm] at h
      simp [setCol, hm, ih h]

lemma renameCol_append (old new : String) (a b : Row) :
    renameCol old new (a ++ b) = renameCol old new a ++ renameCol old new b := by
  simp [renameCol]

lemma renameCol_of_none {a : Row} {old : String} (new : String)
    (h : getCol a old = none) : renameCol old new a = a := by
  rw [getCol_none_iff] at h
  induction a with
  | nil => rfl
  | cons p rest ih =>
    simp only [renameCol, List.map_cons]
    rw [if_neg (h p (List.mem_cons_self p rest))]
    have := ih (fun q hq => h q (List.mem_cons_of_mem p hq))
    simpa [renameCol] using this

end BasicLemmas

section StringLemmas

lemma matchesCol_ne_conditioner (l : String) : "Matches_" ++ l ≠ "conditioner" := by
  intro h
  have h2 := congrArg String.data h
  rw [String.data_append] at h2
  have e1 : "Matches_".data = ['M', 'a', 't', 'c', 'h', 'e', 's', '_'] := rfl
  have e2 : "conditioner".data = ['c', 'o', 'n', 'd', 'i', 't', 'i', 'o', 'n', 'e', 'r'] := rfl
  rw [e1, e2] at h2
  simp at h2

lemma matchesCol_ne_matches (l : String) : "Matches_" ++ l ≠ "Matches" := by
  intro h
  have h2 := congrArg String.data h
  rw [String.data_append] at h2
  have e1 : "Matches_".data = ['M', 'a', 't', 'c', 'h', 'e', 's', '_'] := rfl
  have e2 : "Matches".data = ['M', 'a', 't', 'c', 'h', 'e', 's'] := rfl
  rw [e1, e2] at h2
  simp at h2

lemma matchesCol_inj {a b : String} (h : "Matches_" ++ a = "Matches_" ++ b) : a = b := by
  have h2 := congrArg String.data h
  rw [String.data_append, String.data_append] at h2
  exact String.ext (List.append_cancel_left h2)

end StringLemmas

section AddMatchesStructure

lemma getCol_skip_extras (r : Row) (M : List (String × Value)) (c : Value)
    {fc : String} (hfc : fc ≠ "conditioner") (hfM : ∀ p ∈ M, p.1 ≠ fc) :
    getCol (r ++ ("conditioner", c) :: M) fc = getCol r fc := by
  cases h : getCol r fc with
  | some v => exact getCol_append_of_some _ h
  | none =>
    rw [getCol_append_of_none _ h]
    have hne : ¬ ("conditioner" = fc) := fun hh => hfc hh.symm
    have hM : getCol M fc = none := getCol_none_iff.mpr hfM
    simp [getCol, hne, hM]

lemma transform_rename_spec (m : ConditionalKNNModel) (r : Row)
    (M : List (String × Value)) (label : String)
    (hout : m.outputCol = "Matches") (hcond : m.conditionerCol = "conditioner")
    (hfc : m.featuresCol ≠ "conditioner")
    (hMnames : ∀ p ∈ M, ∃ l, p.1 = "Matches_" ++ l)
    (hfM : ∀ p ∈ M, p.1 ≠ m.featuresCol)
    (h1 : getCol r "conditioner" = none) (h2 : getCol r "Matches" = none) :
    renameCol "Matches" ("Matches_" ++ label)
        (transformRow m (r ++ ("conditioner", Value.strList [label]) :: M))
      = r ++ ("conditioner", Value.strList [label]) ::
          (M ++ [("Matches_" ++ label,
            Value.matches (query m.store m.k (getVec r m.featuresCol) [label]))]) := by
  have hvec : getVec (r ++ ("conditioner", Value.strList [label]) :: M) m.featuresCol
      = getVec r m.featuresCol := by
    unfold getVec
    rw [getCol_skip_extras r M _ hfc hfM]
  have hcondread :
      getStrList (r ++ ("conditioner", Value.strList [label]) :: M) "conditioner"
        = [label] := by
    unfold getStrList
    rw [getCol_append_of_none _ h1]
    simp [getCol]
  have htr : transformRow m (r ++ ("conditioner", Value.strList [label]) :: M)
      = r ++ ("conditioner", Value.strList [label]) ::
          (M ++ [("Matches",
            Value.matches (query m.store m.k (getVec r m.featuresCol) [label]))]) := by
    unfold transformRow
    rw [hout, hcond, hvec, hcondread]
    simp
  rw [htr]
  have hra : renameCol "Matches" ("Matches_" ++ label)
      (r ++ ("conditioner", Value.strList [label]) ::
        (M ++ [("Matches",
          Value.matches (query m.store m.k (getVec r m.featuresCol) [label]))]))
      = renameCol "Matches" ("Matches_" ++ label) r ++
        renameCol "Matches" ("Matches_" ++ label)
          (("conditioner", Value.strList [label]) ::
            (M ++ [("Matches",
              Value.matches (query m.store m.k (getVec r m.featuresCol) [label]))])) :=
    renameCol_append _ _ _ _
  rw [hra, renameCol_of_none _ h2]
  have hMnone : getCol (M ++ [("Matches",
      Value.matches (query m.store m.k (getVec r m.featuresCol) [label]))]) "Matches"
      = getCol [("Matches",
        Value.matches (query m.store m.k (getVec r m.featuresCol) [label]))] "Matches" := by
    apply getCol_append_of_none
    apply getCol_none_iff.mpr
    intro p hp
    obtain ⟨l, hl⟩ := hMnames p hp
    rw [hl]
    exact matchesCol_ne_matches l
  have hMren : renameCol "Matches" ("Matches_" ++ label) M = M := by
    apply renameCol_of_none
    apply getCol_none_iff.mpr
    intro p hp
    obtain ⟨l, hl⟩ := hMnames p hp
    rw [hl]
    exact matchesCol_ne_matches l
  simp only [renameCol, List.map_cons, List.map_append]
  rw [if_neg (by decide : ¬ ("conditioner" = "Matches"))]
  have hMren' : M.map (fun p => if p.1 = "Matches" then ("Matches_" ++ label, p.2) else p)
      = M := by
    have := hMren
    simpa [renameCol] using this
  rw [hMren']
  simp

lemma add_matches_rowStep_shift (m : ConditionalKNNModel) (r : Row)
    (M : List (String × Value)) (x label : String)
    (hout : m.outputCol = "Matches") (hcond : m.conditionerCol = "conditioner")
    (hfc : m.featuresCol ≠ "conditioner")
    (hMnames : ∀ p ∈ M, ∃ l, p.1 = "Matches_" ++ l)
    (hfM : ∀ p ∈ M, p.1 ≠ m.featuresCol)
    (h1 : getCol r "conditioner" = none) (h2 : getCol r "Matches" = none) :
    add_matches_rowStep m (r ++ ("conditioner", Value.strList [x]) :: M) label
      = r ++ ("conditioner", Value.strList [label]) ::
          (M ++ [("Matches_" ++ label,
            Value.matches (query m.store m.k (getVec r m.featuresCol) [label]))]) := by
  unfold add_matches_rowStep
  rw [setCol_append_of_none _ _ h1, setCol_cons_self]
  exact transform_rename_spec m r M label hout hcond hfc hMnames hfM h1 h2

lemma add_matches_rowStep_start (m : ConditionalKNNModel) (r : Row) (label : String)
    (hout : m.outputCol = "Matches") (hcond : m.conditionerCol = "conditioner")
    (hfc : m.featuresCol ≠ "conditioner")
    (h1 : getCol r "conditioner" = none) (h2 : getCol r "Matches" = none) :
    add_matches_rowStep m r label
      = r ++ ("conditioner", Value.strList [label]) ::
          [("Matches_" ++ label,
            Value.matches (query m.store m.k (getVec r m.featuresCol) [label]))] := by
  unfold add_matches_rowStep
  rw [setCol_of_none _ h1]
  have : r ++ [("conditioner", Value.strList [label])]
      = r ++ ("conditioner", Value.strList [label]) :: [] := rfl
  rw [this]
  have := transform_rename_spec m r [] label hout hcond hfc (by simp) (by simp) h1 h2
  simpa using this

end AddMatchesStructure

section AddMatchesFold

lemma getLast?_getD_cons (c x : String) (cs : List String) :
    (c :: cs).getLast?.getD x = cs.getLast?.getD c := by
  induction cs generalizing c x with
  | nil => rfl
  | cons d ds ih =>
    rw [List.getLast?_cons_cons, ih d x, ih d c]

lemma foldl_rowStep_spec (m : ConditionalKNNModel) (r : Row)
    (hout : m.outputCol = "Matches") (hcond : m.conditionerCol = "conditioner")
    (hfc : m.featuresCol ≠ "conditioner")
    (h1 : getCol r "conditioner" = none) (h2 : getCol r "Matches" = none) :
    ∀ (classes : List String) (M : List (String × Value)) (x : String),
    (∀ p ∈ M, ∃ l, p.1 = "Matches_" ++ l) →
    (∀ p ∈ M, p.1 ≠ m.featuresCol) →
    (∀ l ∈ classes, "Matches_" ++ l ≠ m.featuresCol) →
    List.foldl (add_matches_rowStep m)
        (r ++ ("conditioner", Value.strList [x]) :: M) classes
      = r ++ ("conditioner", Value.strList [classes.getLastD x]) ::
          (M ++ matchCols m classes r) := by
  intro classes
  induction classes with
  | nil =>
    intro M x _ _ _
    simp [matchCols]
  | cons c cs ih =>
    intro M x hMnames hfM hcls
    rw [List.foldl_cons,
      add_matches_rowStep_shift m r M x c hout hcond hfc hMnames hfM h1 h2]
    have hnew : ∀ p ∈ M ++ [("Matches_" ++ c,
        Value.matches (query m.store m.k (getVec r m.featuresCol) [c]))],
        ∃ l, p.1 = "Matches_" ++ l := by
      intro p hp
      rcases List.mem_append.mp hp with hp | hp
      · exact hMnames p hp
      · simp at hp
        exact ⟨c, by rw [hp]⟩
    have hfnew : ∀ p ∈ M ++ [("Matches_" ++ c,
        Value.matches (query m.store m.k (getVec r m.featuresCol) [c]))],
        p.1 ≠ m.featuresCol := by
      intro p hp
      rcases List.mem_append.mp hp with hp | hp
      · exact hfM p hp
      · simp at hp
        rw [hp]
        exact hcls c (List.mem_cons_self c cs)
    have hcs : ∀ l ∈ cs, "Matches_" ++ l ≠ m.featuresCol :=
      fun l hl => hcls l (List.mem_cons_of_mem c hl)
    rw [ih _ c hnew hfnew hcs]
    simp [matchCols, List.getLastD_cons]
    exact (getLast?_getD_cons c x cs).symm

lemma add_matches_eq_map (classes : List String) (m : ConditionalKNNModel) (t : Table) :
    add_matches classes m t
      = t.map (fun r => classes.foldl (add_matches_rowStep m) r) := by
  induction classes generalizing t with
  | nil => simp [add_matches]
  | cons c cs ih =>
    have hstep : withColumnRenamed "Matches" ("Matches_" ++ c)
        (transform m (withColumn "conditioner" (Value.strList [c]) t))
        = t.map (fun r => add_matches_rowStep m r c) := by
      simp [withColumn, transform, withColumnRenamed, List.map_map,
        add_matches_rowStep, Function.comp]
    have hrw : add_matches (c :: cs) m t
        = add_matches cs m (withColumnRenamed "Matches" ("Matches_" ++ c)
            (transform m (withColumn "conditioner" (Value.strList [c]) t))) := rfl
    rw [hrw, hstep, ih, List.map_map]
    rfl

lemma add_matches_row_spec (m : ConditionalKNNModel) (r : Row) (c : String) (cs : List String)
    (hout : m.outputCol = "Matches") (hcond : m.conditionerCol = "conditioner")
    (hfc : m.featuresCol ≠ "conditioner")
    (hcls : ∀ l ∈ c :: cs, "Matches_" ++ l ≠ m.featuresCol)
    (h1 : getCol r "conditioner" = none) (h2 : getCol r "Matches" = none) :
    (c :: cs).foldl (add_matches_rowStep m) r
      = r ++ ("conditioner", Value.strList [(c :: cs).getLastD ""]) ::
          matchCols m (c :: cs) r := by
  rw [List.foldl_cons, add_matches_rowStep_start m r c hout hcond hfc h1 h2]
  have hone : ∀ p ∈ [("Matches_" ++ c,
      Value.matches (query m.store m.k (getVec r m.featuresCol) [c]))],
      ∃ l, p.1 = "Matches_" ++ l := by
    intro p hp
    simp at hp
    exact ⟨c, by rw [hp]⟩
  have hfone : ∀ p ∈ [("Matches_" ++ c,
      Value.matches (query m.store m.k (getVec r m.featuresCol) [c]))],
      p.1 ≠ m.featuresCol := by
    intro p hp
    simp at hp
    rw [hp]
    exact hcls c (List.mem_cons_self c cs)
  have hcs : ∀ l ∈ cs, "Matches_" ++ l ≠ m.featuresCol :=
    fun l hl => hcls l (List.mem_cons_of_mem c hl)
  rw [foldl_rowStep_spec m r hout hcond hfc h1 h2 cs _ c hone hfone hcs]
  simp [matchCols, List.getLastD_cons]
  exact (getLast?_getD_cons c "" cs).symm

end AddMatchesFold

section QueryLemmas

lemma query_nil_of_no_label (entries : List Entry) (k : Nat) (q : List Int) (c : String)
    (h : ∀ e ∈ entries, e.label ≠ c) : query entries k q [c] = [] := by
  unfold query
  have hf : entries.filter (fun e => [c].contains e.label) = [] := by
    apply List.filter_eq_nil_iff.mpr
    intro e he
    simp [h e he]
  rw [hf]
  simp [sortByDist]

lemma query_length_le (entries : List Entry) (k : Nat) (q : List Int) (conds : List String) :
    (query entries k q conds).length ≤ k := by
  unfold query
  rw [List.length_take]
  exact min_le_left _ _

lemma getCol_matchCols (m : ConditionalKNNModel) (r : Row) {c : String}
    {classes : List String} (hc : c ∈ classes) :
    getCol (matchCols m classes r) ("Matches_" ++ c)
      = some (Value.matches (query m.store m.k (getVec r m.featuresCol) [c])) := by
  induction classes with
  | nil => cases hc
  | cons l ls ih =>
    by_cases hl : "Matches_" ++ l = "Matches_" ++ c
    · have hlc : l = c := matchesCol_inj hl
      subst hlc
      simp [matchCols, getCol]
    · have hne : c ≠ l := fun hh => hl (by rw [hh])
      have hc' : c ∈ ls := by
        rcases List.mem_cons.mp hc with h | h
        · exact absurd h.symm (fun hh => hl (by rw [hh]))
        · exact h
      simp only [matchCols, List.map_cons, getCol, if_neg hl]
      exact ih hc'

lemma getCol_output_matchCol (m : ConditionalKNNModel) (r : Row) {c : String}
    {classes : List String} (hc : c ∈ classes) (x : String)
    (hr : getCol r ("Matches_" ++ c) = none) :
    getCol (r ++ ("conditioner", Value.strList [x]) :: matchCols m classes r)
        ("Matches_" ++ c)
      = some (Value.matches (query m.store m.k (getVec r m.featuresCol) [c])) := by
  rw [getCol_append_of_none _ hr]
  have hne : ¬ ("conditioner" = "Matches_" ++ c) :=
    fun hh => matchesCol_ne_conditioner c hh.symm
  simp only [getCol, if_neg hne]
  exact getCol_matchCols m r hc

end QueryLemmas

section MapELemmas

lemma mapE_ok_length {α β : Type} (f : α → Except String β) :
    ∀ {xs : List α} {ys : List β}, mapE f xs = .ok ys → ys.length = xs.length := by
  intro xs
  induction xs with
  | nil =>
    intro ys h
    simp only [mapE] at h
    cases h
    rfl
  | cons x xs ih =>
    intro ys h
    simp only [mapE] at h
    cases hfx : f x with
    | error e => rw [hfx] at h; cases h
    | ok y =>
      rw [hfx] at h
      cases hm : mapE f xs with
      | error e => rw [hm] at h; cases h
      | ok ys2 =>
        rw [hm] at h
        cases h
        simp [ih hm]

lemma mapE_ok_get {α β : Type} (f : α → Except String β) :
    ∀ {xs : List α} {ys : List β}, mapE f xs = .ok ys →
    ∀ i, i < xs.length →
      ∃ x y, xs[i]? = some x ∧ ys[i]? = some y ∧ f x = .ok y := by
  intro xs
  induction xs with
  | nil =>
    intro ys _ i hi
    simp at hi
  | cons x xs ih =>
    intro ys h i hi
    simp only [mapE] at h
    cases hfx : f x with
    | error e => rw [hfx] at h; cases h
    | ok y =>
      rw [hfx] at h
      cases hm : mapE f xs with
      | error e => rw [hm] at h; cases h
      | ok ys2 =>
        rw [hm] at h
        cases h
        cases i with
        | zero => exact ⟨x, y, by simp, by simp, hfx⟩
        | succ i2 =>
          have hi2 : i2 < xs.length := by simpa using hi
          obtain ⟨x2, y2, hx2, hy2, hf2⟩ := ih hm i2 hi2
          exact ⟨x2, y2, by simpa using hx2, by simpa using hy2, hf2⟩

lemma mapE_error_of_mem {α β : Type} (f : α → Except String β) {x : α} {e : String} :
    ∀ {xs : List α}, x ∈ xs → f x = .error e →
      ∃ e2, mapE f xs = .error e2 := by
  intro xs
  induction xs with
  | nil => intro hx; cases hx
  | cons y ys ih =>
    intro hx hfx
    rcases List.mem_cons.mp hx with hx | hx
    · subst hx
      exact ⟨e, by simp [mapE, hfx]⟩
    · cases hfy : f y with
      | error e2 => exact ⟨e2, by simp [mapE, hfy]⟩
      | ok z =>
        obtain ⟨e2, he2⟩ := ih hx hfx
        exact ⟨e2, by simp [mapE, hfy, he2]⟩

lemma firstMatchValue_ok {r : Row} {label s : String}
    (h : firstMatchValue r label = .ok s) :
    ∃ mr rest, getCol r ("Matches_" ++ label) = some (Value.matches (mr :: rest)) ∧
      mr.value = s := by
  unfold firstMatchValue at h
  cases hg : getCol r ("Matches_" ++ label) with
  | none => rw [hg] at h; cases h
  | some v =>
    rw [hg] at h
    rcases v with s2 | xs2 | ls2 | ms
    · cases h
    · cases h
    · cases h
    · rcases ms with _ | ⟨mr, rest⟩
      · cases h
      · cases h
        exact ⟨mr, rest, rfl, rfl⟩

end MapELemmas

section GridLemmas

lemma cellAt_plot_urls_grid (url_arr : List (List String)) (titles : List String)
    {j i : Nat} (hj : j < (url_arr.headD []).length) (hi : i < url_arr.length) :
    cellAt (plot_urls_grid url_arr titles) j i
      = some (arrAt url_arr i j, if j = 0 then titles[i]? else none) := by
  unfold cellAt plot_urls_grid
  simp only []
  rw [List.getElem?_map, List.getElem?_range hj]
  simp only [Option.map_some', Option.some_bind]
  rw [List.getElem?_map, List.getElem?_range hi]
  simp

end GridLemmas

/-- Claim C1, amended.  For every nonempty ordered sequence of label
conditions, a model writing `Matches` and reading `conditioner` (as both
notebook models do), and an input Result Table whose rows do not already
use the scratch names, `add_matches` returns the input rows, in order and
with their columns unchanged in front, each extended with the leftover
scratch column `conditioner` (holding the last condition) followed by
exactly n new match-result columns, one per condition, named
`Matches_<condition>`, appended in input order, each holding the index
query result for that row's embedding under that condition.  The original
claim's "no other column added" fails: the scratch `conditioner` column
remains (see the counterexample). -/
theorem add_matches_extends_each_row (classes : List String)
    (m : ConditionalKNNModel) (t : Table) (hne : classes ≠ [])
    (hout : m.outputCol = "Matches") (hcond : m.conditionerCol = "conditioner")
    (hfc : m.featuresCol ≠ "conditioner")
    (hcls : ∀ l ∈ classes, "Matches_" ++ l ≠ m.featuresCol)
    (hwf : ∀ r ∈ t, getCol r "conditioner" = none ∧ getCol r "Matches" = none) :
    add_matches classes m t
      = t.map (fun r =>
          r ++ ("conditioner", Value.strList [classes.getLastD ""]) ::
            matchCols m classes r) := by
  cases classes with
  | nil => exact absurd rfl hne
  | cons c cs =>
    rw [add_matches_eq_map]
    apply List.map_congr_left
    intro r hr
    exact add_matches_row_spec m r c cs hout hcond hfc hcls (hwf r hr).1 (hwf r hr).2

/-- Witness for C1 at a concrete input: one row, one condition, a
one-entity store. -/
theorem add_matches_extends_each_row_witness :
    add_matches ["paintings"] (conditionalKNN [⟨[1], "paintings", "u1"⟩])
        [[("id", Value.str "a"), ("Norm_Features", Value.vec [0])]]
      = [[("id", Value.str "a"), ("Norm_Features", Value.vec [0]),
          ("conditioner", Value.strList ["paintings"]),
          ("Matches_" ++ "paintings", Value.matches [⟨"u1", 1⟩])]] := by
  rw [add_matches_extends_each_row ["paintings"] (conditionalKNN [⟨[1], "paintings", "u1"⟩])
    [[("id", Value.str "a"), ("Norm_Features", Value.vec [0])]] (by decide) rfl rfl
    (by decide) (by decide) (by decide)]
  decide

/-- Counterexample to C1 as stated: on a one-column table and a single
condition, the output gains the `conditioner` column in addition to the
single match column, so a column not named for any condition is added. -/
theorem add_matches_adds_conditioner_column :
    (add_matches ["paintings"] (conditionalKNN [])
        [[("id", Value.str "a")]]).map (fun r => r.map Prod.fst)
      = [["id", "conditioner", "Matches_paintings"]] ∧
    (add_matches ["paintings"] (conditionalKNN [])
        [[("id", Value.str "a")]]).map (fun r => r.map Prod.fst)
      ≠ [["id", "Matches_paintings"]] := by
  decide

/-- Claim C2.  A label condition matching zero entities of the store
yields, in every row of the orchestrator's output, a present
`Matches_<condition>` column holding the empty match list — the column is
never omitted — and the (total) orchestration returns a table rather than
raising an error. -/
theorem add_matches_unmatched_condition_empty (classes : List String)
    (m : ConditionalKNNModel) (t : Table) (c : String) (hc : c ∈ classes)
    (hout : m.outputCol = "Matches") (hcond : m.conditionerCol = "conditioner")
    (hfc : m.featuresCol ≠ "conditioner")
    (hcls : ∀ l ∈ classes, "Matches_" ++ l ≠ m.featuresCol)
    (hwf : ∀ r ∈ t, getCol r "conditioner" = none ∧ getCol r "Matches" = none ∧
      getCol r ("Matches_" ++ c) = none)
    (hstore : ∀ e ∈ m.store, e.label ≠ c) :
    ∀ row ∈ add_matches classes m t,
      getCol row ("Matches_" ++ c) = some (Value.matches []) := by
  cases classes with
  | nil => cases hc
  | cons c0 cs =>
    intro row hrow
    rw [add_matches_eq_map] at hrow
    obtain ⟨r, hr, rfl⟩ := List.mem_map.mp hrow
    rw [add_matches_row_spec m r c0 cs hout hcond hfc hcls (hwf r hr).1 (hwf r hr).2.1]
    rw [getCol_output_matchCol m r hc _ (hwf r hr).2.2]
    rw [query_nil_of_no_label m.store m.k (getVec r m.featuresCol) c hstore]

/-- Witness for C2 at a concrete input: the store only holds a `glass`
entity, the condition is `paintings`. -/
theorem add_matches_unmatched_condition_empty_witness :
    getCol ((add_matches ["paintings"] (conditionalKNN [⟨[0], "glass", "g1"⟩])
        [[("Norm_Features", Value.vec [0])]]).headD []) ("Matches_" ++ "paintings")
      = some (Value.matches []) :=
  add_matches_unmatched_condition_empty ["paintings"] (conditionalKNN [⟨[0], "glass", "g1"⟩])
    [[("Norm_Features", Value.vec [0])]] "paintings" (by decide) rfl rfl (by decide)
    (by decide) (by decide) (by decide) _ (by decide)

/-- Claim C3.  A network or decode failure while fetching the image of any
single cell of the grid aborts the entire `plot_urls` render: the raised
error propagates out (no placeholder is substituted, no per-cell isolation
is applied) and no output artifact results. -/
theorem plot_urls_aborts_on_fetch_failure (fetch : String → Except String Img)
    (url_arr : List (List String)) (titles : List String) (filename : String)
    (j i : Nat) (e : String)
    (hj : j < (plot_urls_grid url_arr titles).rows)
    (hi : i < (plot_urls_grid url_arr titles).cols)
    (hf : fetch (cellUrl (plot_urls_grid url_arr titles) j i) = .error e) :
    ∃ e2, plot_urls fetch url_arr titles filename = .error e2 := by
  have hmem : (i, j) ∈ gridIndices (plot_urls_grid url_arr titles) := by
    unfold gridIndices
    rw [List.mem_flatMap]
    exact ⟨i, List.mem_range.mpr hi, List.mem_map.mpr ⟨j, List.mem_range.mpr hj, rfl⟩⟩
  have hcell : plot_img fetch (cellUrl (plot_urls_grid url_arr titles) j i)
      (cellTitle (plot_urls_grid url_arr titles) j i) = .error e := by
    unfold plot_img
    rw [hf]
    rfl
  obtain ⟨e2, he2⟩ := mapE_error_of_mem
    (fun p => plot_img fetch (cellUrl (plot_urls_grid url_arr titles) p.2 p.1)
      (cellTitle (plot_urls_grid url_arr titles) p.2 p.1)) hmem hcell
  refine ⟨e2, ?_⟩
  unfold plot_urls
  rw [he2]

/-- Witness for C3 at a concrete input: a 1-by-1 grid whose only url fails
to fetch. -/
theorem plot_urls_aborts_on_fetch_failure_witness :
    ∃ e2, plot_urls
        (fun u => if u = "bad" then Except.error "ConnectionError" else Except.ok "img")
        [["bad"]] ["t"] "out.png" = .error e2 :=
  plot_urls_aborts_on_fetch_failure
    (fun u => if u = "bad" then Except.error "ConnectionError" else Except.ok "img")
    [["bad"]] ["t"] "out.png" 0 0 "ConnectionError" (by decide) (by decide) (by rfl)

/-- Claim C4.  Re-running the orchestrator with an unchanged entity store
(and index), the identical query table and the identical condition
sequence yields an identical Result Table: in this embedding each index
query is a deterministic function of the index contents and the query, so
the whole orchestration is a function of its inputs. -/
theorem add_matches_deterministic (classes1 classes2 : List String)
    (m1 m2 : ConditionalKNNModel) (t1 t2 : Table)
    (hcls : classes1 = classes2) (hm : m1 = m2) (ht : t1 = t2) :
    add_matches classes1 m1 t1 = add_matches classes2 m2 t2 := by
  rw [hcls, hm, ht]

/-- Witness for C4 at a concrete input. -/
theorem add_matches_deterministic_witness :
    add_matches cultures (conditionalKNN [⟨[0], "japanese", "u"⟩])
        [[("Norm_Features", Value.vec [0])]]
      = add_matches cultures (conditionalKNN [⟨[0], "japanese", "u"⟩])
        [[("Norm_Features", Value.vec [0])]] :=
  add_matches_deterministic cultures cultures (conditionalKNN [⟨[0], "japanese", "u"⟩])
    (conditionalKNN [⟨[0], "japanese", "u"⟩]) [[("Norm_Features", Value.vec [0])]]
    [[("Norm_Features", Value.vec [0])]] rfl rfl rfl

/-- Counterexample to C5 as stated: a render of 2 query entities under 2
conditions (the url array holds the original row plus one row per
condition, each of length 2) produces a grid of 2 subplot rows and 3
subplot columns — not one column per query entity (which would be 2
columns) as the claim says. -/
theorem plot_urls_grid_transposed_counterexample :
    (plot_urls_grid [["o1", "o2"], ["a1", "a2"], ["b1", "b2"]]
        ["Original", "c1", "c2"]).rows = 2 ∧
    (plot_urls_grid [["o1", "o2"], ["a1", "a2"], ["b1", "b2"]]
        ["Original", "c1", "c2"]).cols = 3 ∧
    ¬ ((plot_urls_grid [["o1", "o2"], ["a1", "a2"], ["b1", "b2"]]
        ["Original", "c1", "c2"]).cols = 2) := by
  decide

/-- Claim C5, amended.  The Result Presenter arranges the rendered output
as a 2D grid with one ROW per query entity and one COLUMN per
(original + each condition) — the transpose of the claimed orientation —
and the `Original`/condition labels are rendered as the titles of the
cells of the first grid row, i.e. as column titles; cell `[j, i]` shows
`url_arr[i][j]`. -/
theorem plot_urls_grid_shape (url_arr : List (List String)) (titles : List String)
    (ny : Nat) (hne : url_arr ≠ []) (hrect : ∀ l ∈ url_arr, l.length = ny) :
    (plot_urls_grid url_arr titles).rows = ny ∧
    (plot_urls_grid url_arr titles).cols = url_arr.length ∧
    ∀ j i, j < ny → i < url_arr.length →
      cellAt (plot_urls_grid url_arr titles) j i
        = some (arrAt url_arr i j, if j = 0 then titles[i]? else none) := by
  have hhead : (url_arr.headD []).length = ny := by
    cases url_arr with
    | nil => exact absurd rfl hne
    | cons a rest => exact hrect a (List.mem_cons_self a rest)
  refine ⟨by simpa [plot_urls_grid] using hhead, by simp [plot_urls_grid], ?_⟩
  intro j i hjy hi
  exact cellAt_plot_urls_grid url_arr titles (by rw [hhead]; exact hjy) hi

/-- Witness for C5 at a concrete input: 2 query entities, 1 condition. -/
theorem plot_urls_grid_shape_witness :
    (plot_urls_grid [["o1", "o2"], ["a1", "a2"]] ["Original", "c1"]).rows = 2 ∧
    (plot_urls_grid [["o1", "o2"], ["a1", "a2"]] ["Original", "c1"]).cols
      = [["o1", "o2"], ["a1", "a2"]].length ∧
    ∀ j i, j < 2 → i < [["o1", "o2"], ["a1", "a2"]].length →
      cellAt (plot_urls_grid [["o1", "o2"], ["a1", "a2"]] ["Original", "c1"]) j i
        = some (arrAt [["o1", "o2"], ["a1", "a2"]] i j,
            if j = 0 then ["Original", "c1"][i]? else none) :=
  plot_urls_grid_shape [["o1", "o2"], ["a1", "a2"]] ["Original", "c1"] 2
    (by decide) (by decide)

/-- Claim C6.  The requested result count k is fixed per run on the model
and defaults to 1 (the notebook never calls `setK`), so in the output of
`add_matches` under a default-k model every cell of every match-result
column is a singleton-or-empty match list. -/
theorem add_matches_default_k_cells_bounded (entries : List Entry)
    (classes : List String) (t : Table) (l : String) (hl : l ∈ classes)
    (hcls : ∀ l2 ∈ classes, "Matches_" ++ l2 ≠ "Norm_Features")
    (hwf : ∀ r ∈ t, getCol r "conditioner" = none ∧ getCol r "Matches" = none ∧
      getCol r ("Matches_" ++ l) = none) :
    ∀ row ∈ add_matches classes (conditionalKNN entries) t,
      ∃ ms, getCol row ("Matches_" ++ l) = some (Value.matches ms) ∧ ms.length ≤ 1 := by
  cases classes with
  | nil => cases hl
  | cons c0 cs =>
    intro row hrow
    rw [add_matches_eq_map] at hrow
    obtain ⟨r, hr, rfl⟩ := List.mem_map.mp hrow
    rw [add_matches_row_spec (conditionalKNN entries) r c0 cs rfl rfl
      (by show "Norm_Features" ≠ "conditioner"; decide) hcls
      (hwf r hr).1 (hwf r hr).2.1]
    refine ⟨query entries 1 (getVec r "Norm_Features") [l], ?_, ?_⟩
    · exact getCol_output_matchCol (conditionalKNN entries) r hl _ (hwf r hr).2.2
    · exact query_length_le entries 1 (getVec r "Norm_Features") [l]

/-- Witness for C6 at a concrete input: two store entities carry the
condition label, yet the cell holds at most one match. -/
theorem add_matches_default_k_cells_bounded_witness :
    ∃ ms, getCol ((add_matches ["paintings"]
        (conditionalKNN [⟨[0], "paintings", "u1"⟩, ⟨[1], "paintings", "u2"⟩])
        [[("Norm_Features", Value.vec [0])]]).headD []) ("Matches_" ++ "paintings")
      = some (Value.matches ms) ∧ ms.length ≤ 1 :=
  add_matches_default_k_cells_bounded
    [⟨[0], "paintings", "u1"⟩, ⟨[1], "paintings", "u2"⟩] ["paintings"]
    [[("Norm_Features", Value.vec [0])]] "paintings" (by decide) (by decide) (by decide)
    _ (by decide)

/-- Claim C7.  For each query row and each condition, the Result Presenter
displays exactly the row's original auxiliary value (its `Thumbnail_Url`)
in the first grid column and, in the column of each condition, the first
(index 0, highest-ranked) auxiliary value of that condition's Match
Result. -/
theorem presenter_shows_original_and_first_match (labels : List String)
    (results : Table) (urls : List (List String)) (titles : List String) (j : Nat)
    (hex : extractUrls labels results = .ok urls) (hj : j < results.length) :
    ∃ r, results[j]? = some r ∧
      cellAt (plot_urls_grid ((results.map (fun r2 => getStr r2 "Thumbnail_Url")) :: urls)
          titles) j 0
        = some (getStr r "Thumbnail_Url", if j = 0 then titles[0]? else none) ∧
      ∀ c, c < labels.length → ∃ label mr rest,
        labels[c]? = some label ∧
        getCol r ("Matches_" ++ label) = some (Value.matches (mr :: rest)) ∧
        cellAt (plot_urls_grid ((results.map (fun r2 => getStr r2 "Thumbnail_Url")) :: urls)
            titles) j (c + 1)
          = some (mr.value, if j = 0 then titles[c + 1]? else none) := by
  have hurls : urls.length = labels.length := mapE_ok_length _ hex
  have hhead : j < (((results.map (fun r2 => getStr r2 "Thumbnail_Url")) :: urls).headD
      []).length := by
    simpa using hj
  refine ⟨results[j], List.getElem?_eq_getElem hj, ?_, ?_⟩
  · rw [cellAt_plot_urls_grid _ titles hhead (by simp)]
    have harr : arrAt ((results.map (fun r2 => getStr r2 "Thumbnail_Url")) :: urls) 0 j
        = getStr results[j] "Thumbnail_Url" := by
      simp [arrAt, List.getElem?_map, List.getElem?_eq_getElem hj]
    rw [harr]
  · intro c hc
    have hcu : c + 1 < ((results.map (fun r2 => getStr r2 "Thumbnail_Url")) :: urls).length := by
      simp [hurls]
      omega
    obtain ⟨label, ys, hlab, hys, hinner⟩ := mapE_ok_get _ hex c hc
    obtain ⟨r2, s, hr2, hs, hfm⟩ := mapE_ok_get _ hinner j hj
    have hr2e : r2 = results[j] := by
      rw [List.getElem?_eq_getElem hj] at hr2
      exact (Option.some.inj hr2).symm
    obtain ⟨mr, rest, hgc, hval⟩ := firstMatchValue_ok hfm
    refine ⟨label, mr, rest, hlab, by rw [← hr2e]; exact hgc, ?_⟩
    rw [cellAt_plot_urls_grid _ titles hhead hcu]
    have harr : arrAt ((results.map (fun r2 => getStr r2 "Thumbnail_Url")) :: urls)
        (c + 1) j = mr.value := by
      unfold arrAt
      rw [List.getElem?_cons_succ, hys]
      simp [hs, hval]
    rw [harr]

/-- Witness for C7 at a concrete input: one row, one condition with a
nonempty match list. -/
theorem presenter_shows_original_and_first_match_witness :
    ∃ r, [[("Thumbnail_Url", Value.str "o"),
          ("Matches_" ++ "x", Value.matches [⟨"m", 0⟩])]][0]? = some r ∧
      cellAt (plot_urls_grid
          (([[("Thumbnail_Url", Value.str "o"),
              ("Matches_" ++ "x", Value.matches [⟨"m", 0⟩])]].map
            (fun r2 => getStr r2 "Thumbnail_Url")) :: [["m"]])
          ["Original", "x"]) 0 0
        = some (getStr r "Thumbnail_Url", if 0 = 0 then ["Original", "x"][0]? else none) ∧
      ∀ c, c < ["x"].length → ∃ label mr rest,
        ["x"][c]? = some label ∧
        getCol r ("Matches_" ++ label) = some (Value.matches (mr :: rest)) ∧
        cellAt (plot_urls_grid
            (([[("Thumbnail_Url", Value.str "o"),
                ("Matches_" ++ "x", Value.matches [⟨"m", 0⟩])]].map
              (fun r2 => getStr r2 "Thumbnail_Url")) :: [["m"]])
            ["Original", "x"]) 0 (c + 1)
          = some (mr.value, if 0 = 0 then ["Original", "x"][c + 1]? else none) :=
  presenter_shows_original_and_first_match ["x"]
    [[("Thumbnail_Url", Value.str "o"), ("Matches_" ++ "x", Value.matches [⟨"m", 0⟩])]]
    [["m"]] ["Original", "x"] 0 (by rfl) (by decide)

/-- Counterexample to C8 as stated: on an input table that already has a
`conditioner` column, `add_matches` overwrites that pre-existing column
with the condition array, so not every pre-existing column of the input
appears unchanged in the output. -/
theorem add_matches_overwrites_preexisting_conditioner :
    getCol ((add_matches ["paintings"] (conditionalKNN [])
        [[("conditioner", Value.str "old")]]).headD []) "conditioner"
      = some (Value.strList ["paintings"]) ∧
    ¬ (getCol ((add_matches ["paintings"] (conditionalKNN [])
        [[("conditioner", Value.str "old")]]).headD []) "conditioner"
      = some (Value.str "old")) := by
  decide

/-- Claim C8, amended.  The orchestrator is a pure function: it mutates
neither the index nor the entity store (both are read-only inputs of
`add_matches` in this embedding), and on any input table whose rows do
not already use the scratch names `conditioner`/`Matches`, every
pre-existing column appears unchanged — same value, same position, as a
prefix of the output row — with only the scratch `conditioner` column and
the match columns appended after it.  For a table that does carry a
`conditioner` column the original claim fails (see the counterexample):
that column is overwritten. -/
theorem add_matches_preserves_other_columns (classes : List String)
    (m : ConditionalKNNModel) (t : Table)
    (hout : m.outputCol = "Matches") (hcond : m.conditionerCol = "conditioner")
    (hfc : m.featuresCol ≠ "conditioner")
    (hcls : ∀ l ∈ classes, "Matches_" ++ l ≠ m.featuresCol)
    (hwf : ∀ r ∈ t, getCol r "conditioner" = none ∧ getCol r "Matches" = none) :
    add_matches classes m t = t.map (fun r => r ++ extraCols m classes r) ∧
    ∀ r ∈ t, ∀ n v, getCol r n = some v →
      getCol (r ++ extraCols m classes r) n = some v := by
  constructor
  · cases classes with
    | nil => simp [add_matches, extraCols]
    | cons c cs =>
      rw [add_matches_eq_map]
      apply List.map_congr_left
      intro r hr
      rw [add_matches_row_spec m r c cs hout hcond hfc hcls (hwf r hr).1 (hwf r hr).2]
      rfl
  · intro r _ n v hv
    exact getCol_append_of_some _ hv

/-- Witness for C8 at a concrete input. -/
theorem add_matches_preserves_other_columns_witness :
    (add_matches ["paintings"] (conditionalKNN [])
        [[("id", Value.str "a")]]
      = [[("id", Value.str "a")]].map
          (fun r => r ++ extraCols (conditionalKNN []) ["paintings"] r)) ∧
    ∀ r ∈ ([[("id", Value.str "a")]] : Table), ∀ n v, getCol r n = some v →
      getCol (r ++ extraCols (conditionalKNN []) ["paintings"] r) n = some v :=
  add_matches_preserves_other_columns ["paintings"] (conditionalKNN [])
    [[("id", Value.str "a")]] rfl rfl (by decide) (by decide) (by decide)

/-- Claim C9.  The first-match extraction in `test_all` unconditionally
indexes element 0 of each match list, so on an input in which a Match
Result is the empty sequence — here a one-row query against empty stores —
`test_all` raises the index-out-of-range error instead of substituting a
placeholder, and its list of written output artifacts is empty. -/
theorem test_all_index_error_on_empty_match :
    test_all (fun _ => Except.ok "img")
        [[("id", Value.str "q1"), ("Thumbnail_Url", Value.str "http-orig"),
          ("Norm_Features", Value.vec [0])]]
        (conditionalKNN []) (conditionalKNN []) ["q1"] "."
      = ([], Except.error "IndexError: list index out of range") := by
  rfl

/-- Claim C10.  `add_matches` applied to an empty condition sequence is
the identity on the Result Table for every model and input table: the
loop body never runs, so no conditioner column is set, no match request
is issued and no column is appended. -/
theorem add_matches_nil_identity (m : ConditionalKNNModel) (df : Table) :
    add_matches [] m df = df :=
  rfl
